import Mathlib

/-!
Verification development for the ticketbuyer repository.

The Go sources are shallowly embedded: transaction values (`int64`) become
`Int`, script versions (`uint16`) become `Nat`, byte slices become `List Nat`.
External wallet/RPC collaborators are abstracted as explicit oracle
parameters; small deterministic library helpers from dcrd/dcrwallet
(`txsizes`, `txrules`, `wire` serialization sizes) that the fee loop's
arithmetic depends on are modelled concretely.  A Go function that can panic
is embedded with an `Option` result where `none` marks the panic.
-/

set_option autoImplicit false

deriving instance DecidableEq for Except

namespace TicketBuyer

/-- Wire transaction output (`wire.TxOut`): value, script version, script bytes. -/
structure TxOut where
  value : Int
  version : Nat
  pkScript : List Nat
  deriving DecidableEq, Repr, Inhabited

/-- Wire outpoint (`wire.OutPoint`): transaction hash, output index, tree. -/
structure OutPoint where
  hash : Nat
  index : Nat
  tree : Int
  deriving DecidableEq, Repr, Inhabited

/-- Wire transaction input (`wire.TxIn`). -/
structure TxIn where
  previousOutPoint : OutPoint
  sequence : Nat
  valueIn : Int
  signatureScript : List Nat
  deriving DecidableEq, Repr, Inhabited

/-- Wire transaction (`wire.MsgTx`), keeping the fields the program reads. -/
structure MsgTx where
  version : Nat
  txIn : List TxIn
  txOut : List TxOut
  deriving DecidableEq, Repr, Inhabited

/-! ## constantTimeOutputSearch (coinjoin.go lines 183-213)

The first loop collects the indexes of outputs whose value, script version
and script length (compared against `len(scripts[0])`) match; the second
loop selects, for each searched script, the last scan index whose script
bytes equal it (`subtle.ConstantTimeCompare` / `ConstantTimeSelect`),
keeping `-1` when none matched, and aggregates a `missing` flag. -/

/-- The scan loop of `constantTimeOutputSearch`: indexes (starting at `i`) of
outputs with the searched value, script version and script length. -/
def scanIndexesAux (value : Int) (scriptVer : Nat) (len0 : Nat) :
    List TxOut → Nat → List Nat
  | [], _ => []
  | o :: rest, i =>
    if o.value = value ∧ o.version = scriptVer ∧ o.pkScript.length = len0 then
      i :: scanIndexesAux value scriptVer len0 rest (i + 1)
    else
      scanIndexesAux value scriptVer len0 rest (i + 1)

/-- The constant-time select loop for one searched script `s`: fold over the
scan list, replacing the accumulator by `i` whenever output `i`'s script
equals `s` byte for byte (`ConstantTimeCompare` is 1 exactly on equal
length and contents; `ConstantTimeSelect` then picks `i`). -/
def ctSelectLoop (outs : List TxOut) (s : List Nat) : List Nat → Int → Int
  | [], idx => idx
  | i :: rest, idx =>
    ctSelectLoop outs s rest (if (outs.getD i default).pkScript = s then (i : Int) else idx)

/-- `ctSelectLoop` starting from the Go initializer `idx := -1`. -/
def ctFind (outs : List TxOut) (scan : List Nat) (s : List Nat) : Int :=
  ctSelectLoop outs s scan (-1)

/-- `constantTimeOutputSearch` (coinjoin.go).  `none` models the Go panic:
with an empty `scripts` list, `len(scripts[0])` is evaluated (and the
program crashes with an index-out-of-range error) as soon as some output
passes the value and script-version checks; if no output passes them, the
expression is never reached and the function returns an empty index list.
`some (Except.error ())` is the `errMissingGen` return, `some (Except.ok
indexes)` the successful return. -/
def constantTimeOutputSearch (tx : MsgTx) (value : Int) (scriptVer : Nat)
    (scripts : List (List Nat)) : Option (Except Unit (List Int)) :=
  match scripts with
  | [] =>
    if tx.txOut.any (fun o => o.value == value && o.version == scriptVer) then
      none
    else
      some (Except.ok [])
  | s0 :: _ =>
    let scan := scanIndexesAux value scriptVer s0.length tx.txOut 0
    let indexes := scripts.map (ctFind tx.txOut scan)
    if indexes.any (fun idx => idx == -1) then
      some (Except.error ())
    else
      some (Except.ok indexes)

/-- Specification-side count: how many outputs of `outs` have the given
value, script version, and exactly the script bytes `s`.  This formalizes
the claims' phrase "candidate output in the transaction with equal value,
script version, and script bytes". -/
def matchCount (outs : List TxOut) (value : Int) (scriptVer : Nat) (s : List Nat) : Nat :=
  outs.countP (fun o => o.value == value && o.version == scriptVer && o.pkScript == s)

/-! ## CsppJoin (coinjoin.go lines 21-177)

The skeleton's `txInputs` Go map (`map[wire.OutPoint]int`) is represented
as an association list with unique keys; inserting an existing key
overwrites its value, as a Go map assignment does, so for duplicate
previous outpoints in `tx.TxIn` the later index wins. -/

/-- Go map assignment `m[k] = v`: overwrite the existing entry or append. -/
def mapInsert (m : List (OutPoint × Nat)) (k : OutPoint) (v : Nat) : List (OutPoint × Nat) :=
  match m with
  | [] => [(k, v)]
  | (k0, v0) :: rest =>
    if k0 = k then (k0, v) :: rest else (k0, v0) :: mapInsert rest k v

/-- `for i, in := range tx.TxIn { txInputs[in.PreviousOutPoint] = i }`. -/
def buildTxInputsAux (ins : List TxIn) (i : Nat) (m : List (OutPoint × Nat)) :
    List (OutPoint × Nat) :=
  match ins with
  | [] => m
  | tin :: rest => buildTxInputsAux rest (i + 1) (mapInsert m tin.previousOutPoint i)

def buildTxInputs (ins : List TxIn) : List (OutPoint × Nat) :=
  buildTxInputsAux ins 0 []

/-- The coinjoin skeleton (`CsppJoin`), keeping the fields the validated
operations read and write.  The external collaborators reachable through
`tb` are abstracted by the oracle parameters of the operations. -/
structure CsppJoin where
  tx : MsgTx
  txInputs : List (OutPoint × Nat)
  myPrevScripts : List (List Nat)
  myIns : List TxIn
  change : Option TxOut
  genScripts : List (List Nat)
  genIndex : List Int
  amount : Int
  deriving DecidableEq, Repr, Inhabited

/-- The error outcomes of `CsppJoin.UnmarshalBinary`, in the order the code
can produce them. -/
inductive JoinError where
  | deserializeFailed
  | missingInputs
  | missingChange
  | missingGen
  deriving DecidableEq, Repr

/-- The input-presence count of `UnmarshalBinary` (coinjoin.go lines
136-145): walk `c.myIns`; an input found in the map with equal sequence and
value-in counts, a mismatch of those fields stops the loop (`break`), an
absent outpoint is skipped without counting. -/
def countMatchedInputs (m : List (OutPoint × Nat)) (joinedIns : List TxIn) :
    List TxIn → Nat
  | [] => 0
  | tin :: rest =>
    match List.lookup tin.previousOutPoint m with
    | some index =>
      let other := joinedIns.getD index default
      if tin.sequence = other.sequence ∧ tin.valueIn = other.valueIn then
        1 + countMatchedInputs m joinedIns rest
      else
        0
    | none => countMatchedInputs m joinedIns rest

/-- The change scan of `UnmarshalBinary` (coinjoin.go lines 149-167): some
output has exactly the change's value, script version, and script bytes. -/
def hasChangeOutput (outs : List TxOut) (change : TxOut) : Bool :=
  outs.any (fun o =>
    o.value == change.value && o.version == change.version && o.pkScript == change.pkScript)

/-- `CsppJoin.UnmarshalBinary` (coinjoin.go lines 123-177) as a state
transformer.  The byte-level `wire.MsgTx` deserialization is external
library code, abstracted by the `tx?` argument (`none` models a
deserialization error).  The returned skeleton is the receiver after the
method: the Go code assigns `c.tx`, `c.txInputs` and `c.genIndex` only
after every validation has passed, so every error path returns the receiver
unchanged.  The outer `none` propagates the possible panic of
`constantTimeOutputSearch`. -/
def unmarshalBinaryS (c : CsppJoin) (tx? : Option MsgTx) :
    Option (CsppJoin × Except JoinError Unit) :=
  match tx? with
  | none => some (c, Except.error JoinError.deserializeFailed)
  | some tx =>
    let txInputs := buildTxInputs tx.txIn
    if countMatchedInputs txInputs tx.txIn c.myIns ≠ c.myIns.length then
      some (c, Except.error JoinError.missingInputs)
    else
      let changeOk :=
        match c.change with
        | some ch => hasChangeOutput tx.txOut ch
        | none => true
      if changeOk = false then
        some (c, Except.error JoinError.missingChange)
      else
        match constantTimeOutputSearch tx c.amount 0 c.genScripts with
        | none => none
        | some (Except.error _) => some (c, Except.error JoinError.missingGen)
        | some (Except.ok indexes) =>
          some ({ c with tx := tx, txInputs := txInputs, genIndex := indexes },
                Except.ok ())

/-! ## CsppJoin.Confirm (coinjoin.go lines 74-110)

`txscript.ExtractPkScriptAddrs`, `tb.privateKeyForAddress` and
`txscript.SignatureScript` are external collaborators, abstracted as
oracles.  An address is either a pay-to-pubkey-hash address (the only kind
the signing path accepts) or some other kind. -/

/-- A decoded address: `dcrutil.AddressPubKeyHash`, or any other concrete
address type (for which the Go type assertion fails). -/
inductive Addr where
  | p2pkh (hash160 : Nat)
  | otherKind (id : Nat)
  deriving DecidableEq, Repr

/-- Oracles for the external calls made by `Confirm`. -/
structure ConfirmEnv where
  extractAddrs : List Nat → Except Unit (List Addr)
  privateKeyForAddress : Nat → Except Unit Nat
  signatureScript : MsgTx → Nat → List Nat → Nat → Except Unit (List Nat)

inductive ConfirmError where
  | missingInputs
  | extractFailed
  | bug
  | privateKeyFailed
  | signFailed
  deriving DecidableEq, Repr

/-- Set the signature script of input `index` of the joined transaction
(`in.SignatureScript = sigscript` through the pointer `c.tx.TxIn[index]`). -/
def setSigScript (tx : MsgTx) (index : Nat) (sig : List Nat) : MsgTx :=
  { tx with txIn :=
      tx.txIn.set index { tx.txIn.getD index default with signatureScript := sig } }

/-- The `Confirm` loop over `(in, outScript)` pairs (`c.myIns` zipped with
`c.myPrevScripts`), threading the joined transaction being signed. -/
def confirmAux (env : ConfirmEnv) (txInputs : List (OutPoint × Nat)) :
    List (TxIn × List Nat) → MsgTx → Except ConfirmError MsgTx
  | [], tx => Except.ok tx
  | (tin, outScript) :: rest, tx =>
    match List.lookup tin.previousOutPoint txInputs with
    | none => Except.error ConfirmError.missingInputs
    | some index =>
      match env.extractAddrs outScript with
      | Except.error _ => Except.error ConfirmError.extractFailed
      | Except.ok addrs =>
        match addrs with
        | [Addr.p2pkh h] =>
          match env.privateKeyForAddress h with
          | Except.error _ => Except.error ConfirmError.privateKeyFailed
          | Except.ok key =>
            match env.signatureScript tx index outScript key with
            | Except.error _ => Except.error ConfirmError.signFailed
            | Except.ok sig => confirmAux env txInputs rest (setSigScript tx index sig)
        | [Addr.otherKind _] => Except.error ConfirmError.bug
        | _ => confirmAux env txInputs rest tx

/-- `CsppJoin.Confirm`: `len(addrs) != 1` skips the input (`continue`);
exactly one address that is not a `*dcrutil.AddressPubKeyHash` is the
`errors.Bug` path; exactly one P2PKH address is signed in place. -/
def confirmGo (env : ConfirmEnv) (c : CsppJoin) : Except ConfirmError MsgTx :=
  confirmAux env c.txInputs (c.myIns.zip c.myPrevScripts) c.tx

/-! ## Size and fee helpers

Concrete models of the small deterministic library functions the builder's
arithmetic depends on: `wire.VarIntSerializeSize`, `txsizes.EstimateInputSize`
/ `EstimateOutputSize` / `EstimateSerializeSize`, `txrules.FeeForSerializeSize`
and `txrules.IsDustAmount`.  Division follows Go `int64` division
(truncation toward zero, `Int.tdiv`). -/

/-- `wire.VarIntSerializeSize`. -/
def varIntSerializeSize (n : Nat) : Nat :=
  if n < 0xfd then 1
  else if n ≤ 0xffff then 3
  else if n ≤ 0xffffffff then 5
  else 9

/-- `txsizes.RedeemP2PKHSigScriptSize` = 1 + 73 + 1 + 33. -/
def redeemP2PKHSigScriptSize : Nat := 108

/-- `txsizes.RedeemP2PKSigScriptSize` = 1 + 73. -/
def redeemP2PKSigScriptSize : Nat := 74

/-- `txsizes.P2PKHPkScriptSize` = 1 + 1 + 1 + 20 + 1 + 1. -/
def p2pkhPkScriptSize : Nat := 25

/-- `txscript.MaxScriptElementSize`. -/
def maxScriptElementSize : Nat := 2048

/-- `dcrutil.MaxAmount`: 21e6 coins in atoms. -/
def maxAmount : Int := 2100000000000000

/-- `txsizes.EstimateInputSize`: previous outpoint (32+4+1), value (8),
block height and index (4+4), and the compact-size-prefixed script. -/
def estimateInputSize (scriptSize : Nat) : Nat :=
  32 + 4 + 1 + 8 + 4 + 4 + varIntSerializeSize scriptSize + scriptSize

/-- `txsizes.EstimateOutputSize`: value (8), version (2), and the
compact-size-prefixed script. -/
def estimateOutputSize (scriptSize : Nat) : Nat :=
  8 + 2 + varIntSerializeSize scriptSize + scriptSize

/-- `wire.TxOut.SerializeSize`, summed over outputs
(`txsizes.SumOutputSerializeSizes`). -/
def sumOutputSerializeSizes (outs : List TxOut) : Nat :=
  outs.foldl (fun acc o => acc + (8 + 2 + varIntSerializeSize o.pkScript.length + o.pkScript.length)) 0

/-- `txsizes.EstimateSerializeSize scriptSizes txOuts changeScriptSize`:
12 bytes of version/locktime/expiry, two input-count compact sizes, one
output-count compact size, the estimated inputs, the declared outputs, and
(when `changeScriptSize > 0`) one extra change output. -/
def estimateSerializeSize (scriptSizes : List Nat) (txOuts : List TxOut)
    (changeScriptSize : Nat) : Nat :=
  let txInsSize := scriptSizes.foldl (fun acc s => acc + estimateInputSize s) 0
  let inputCount := scriptSizes.length
  let outputCount := if 0 < changeScriptSize then txOuts.length + 1 else txOuts.length
  let changeSize := if 0 < changeScriptSize then estimateOutputSize changeScriptSize else 0
  12 + 2 * varIntSerializeSize inputCount + varIntSerializeSize outputCount +
    txInsSize + sumOutputSerializeSizes txOuts + changeSize

/-- `txrules.FeeForSerializeSize relayFeePerKb txSerializeSize`. -/
def feeForSerializeSize (relayFeePerKb : Int) (txSerializeSize : Nat) : Int :=
  let fee := Int.tdiv (relayFeePerKb * (txSerializeSize : Int)) 1000
  let fee := if fee = 0 ∧ 0 < relayFeePerKb then relayFeePerKb else fee
  if fee < 0 ∨ maxAmount < fee then maxAmount else fee

/-- `txrules.IsDustAmount amount scriptSize relayFeePerKb`: the output plus
an average redeeming input (165 bytes) must cost at least a third of the
relay fee rate. -/
def isDustAmount (amount : Int) (scriptSize : Nat) (relayFeePerKb : Int) : Bool :=
  let totalSize : Nat := 8 + 2 + varIntSerializeSize scriptSize + scriptSize + 165
  Int.tdiv (amount * 1000) (3 * (totalSize : Int)) < relayFeePerKb

/-! ## selectInputsForAmount (part_001 lines 112-197, ticketbuyer.go)

A `wallettypes.ListUnspentResult` is modelled with its amount already
converted to atoms (`dcrutil.NewAmount` on the listed float) and its script
already hex-decoded; accounts are opaque identifiers compared for equality.
`txscript.GetScriptClass` and `txscript.GetStakeOutSubclass` are external
script-inspection functions, abstracted as oracles over the script bytes.
The pseudo-random shuffle performed before the scan is modelled by letting
the claims quantify over every ordering of the candidate list. -/

inductive ScriptClass where
  | pubKeyHash
  | pubKey
  | stakeRevocation
  | stakeSubChange
  | stakeGen
  | scriptHash
  | nonStandard
  deriving DecidableEq, Repr

/-- One listed unspent output. -/
structure Utxo where
  txid : Nat
  vout : Nat
  tree : Int
  amount : Int
  spendable : Bool
  account : Nat
  pkScript : List Nat
  deriving DecidableEq, Repr, Inhabited

/-- `txauthor.InputDetail`. -/
structure InputDetail where
  amount : Int
  inputs : List TxIn
  scripts : List (List Nat)
  redeemScriptSizes : List Nat
  deriving DecidableEq, Repr, Inhabited

inductive SelectError where
  | insufficientBalance
  | stakeSubclassFailed
  deriving DecidableEq, Repr

/-- Script-inspection oracles for input selection. -/
structure ScriptEnv where
  getScriptClass : List Nat → ScriptClass
  getStakeOutSubclass : List Nat → Except Unit ScriptClass

/-- The redeem-script-size classification switch of `selectInputsForAmount`:
`ok (some size)` selects the candidate, `ok none` skips it (`continue` with
a logged warning), `error` aborts the whole selection. -/
def redeemScriptSizeFor (env : ScriptEnv) (pkScript : List Nat) :
    Except SelectError (Option Nat) :=
  match env.getScriptClass pkScript with
  | ScriptClass.pubKeyHash => Except.ok (some redeemP2PKHSigScriptSize)
  | ScriptClass.pubKey => Except.ok (some redeemP2PKSigScriptSize)
  | ScriptClass.stakeRevocation | ScriptClass.stakeSubChange | ScriptClass.stakeGen =>
    match env.getStakeOutSubclass pkScript with
    | Except.error _ => Except.error SelectError.stakeSubclassFailed
    | Except.ok sub =>
      if sub = ScriptClass.pubKeyHash then Except.ok (some redeemP2PKHSigScriptSize)
      else Except.ok none
  | _ => Except.ok none

/-- `wire.NewTxIn` on a candidate: outpoint from txid/vout/tree, value-in
from the converted amount, nil signature script. -/
def txInOfUtxo (u : Utxo) : TxIn :=
  { previousOutPoint := { hash := u.txid, index := u.vout, tree := u.tree },
    sequence := 0xffffffff, valueIn := u.amount, signatureScript := [] }

/-- The scan loop of `selectInputsForAmount`, threading the running total
and the three parallel accumulator lists.  A candidate is considered only
if it is spendable and owned by the source account; after appending a
selected candidate the loop returns as soon as the running total reaches
the target. -/
def selectInputsAux (env : ScriptEnv) (sourceAccount : Nat) (target : Int) :
    List Utxo → Int → List TxIn → List (List Nat) → List Nat →
    Except SelectError InputDetail
  | [], _, _, _, _ => Except.error SelectError.insufficientBalance
  | u :: rest, total, ins, scripts, sizes =>
    if u.spendable = true ∧ u.account = sourceAccount then
      match redeemScriptSizeFor env u.pkScript with
      | Except.error e => Except.error e
      | Except.ok none => selectInputsAux env sourceAccount target rest total ins scripts sizes
      | Except.ok (some sz) =>
        let total' := total + u.amount
        let ins' := ins ++ [txInOfUtxo u]
        let scripts' := scripts ++ [u.pkScript]
        let sizes' := sizes ++ [sz]
        if target ≤ total' then
          Except.ok { amount := total', inputs := ins', scripts := scripts',
                      redeemScriptSizes := sizes' }
        else
          selectInputsAux env sourceAccount target rest total' ins' scripts' sizes'
    else
      selectInputsAux env sourceAccount target rest total ins scripts sizes

/-- `selectInputsForAmount targetAmount` over an (already shuffled)
candidate list. -/
def selectInputsForAmount (env : ScriptEnv) (sourceAccount : Nat) (target : Int)
    (utxos : List Utxo) : Except SelectError InputDetail :=
  selectInputsAux env sourceAccount target utxos 0 [] [] []

/-- Total declared value of a list of inputs. -/
def sumValueIn (ins : List TxIn) : Int :=
  (ins.map TxIn.valueIn).sum

/-! ## broadcastTransaction (part_001 lines 41-110, ticketbuyer.go sendFundingTx)

The unbounded `for {}` loop is embedded with explicit fuel: `none` means
the fuel ran out with the loop still running, so a `none` result for every
fuel value is the embedding of nontermination.  Input selection is
abstracted as an iteration-indexed oracle (each Go iteration re-shuffles
or re-fetches the candidate list before scanning); the sign-and-publish RPC
round trip is a boolean oracle on the built transaction. -/

inductive BuildError where
  | selectFailed (e : SelectError)
  | insufficientBalance
  | scriptTooLarge
  | publishFailed
  deriving DecidableEq, Repr

/-- One pass of the fee-convergence `for {}` loop, recursing (with the new
target fee) when the surplus over the output amount does not cover the fee
required by the sizes of the actual selected inputs. -/
def broadcastLoop (selectAt : Nat → Int → Except SelectError InputDetail)
    (publish : MsgTx → Bool) (relayFee : Int) (outputAmount : Int)
    (outputScript changeScript : List Nat) :
    Nat → Int → Nat → Option (Except BuildError MsgTx)
  | 0, _, _ => none
  | fuel + 1, targetFee, iter =>
    let outTx : TxOut := { value := outputAmount, version := 0, pkScript := outputScript }
    match selectAt iter (outputAmount + targetFee) with
    | Except.error e => some (Except.error (BuildError.selectFailed e))
    | Except.ok d =>
      if d.amount < outputAmount + targetFee then
        some (Except.error BuildError.insufficientBalance)
      else
        let maxSignedSize := estimateSerializeSize d.redeemScriptSizes [outTx] p2pkhPkScriptSize
        let maxRequiredFee := feeForSerializeSize relayFee maxSignedSize
        let remainingAmount := d.amount - outputAmount
        if remainingAmount < maxRequiredFee then
          broadcastLoop selectAt publish relayFee outputAmount outputScript changeScript
            fuel maxRequiredFee (iter + 1)
        else
          let changeAmount := d.amount - outputAmount - maxRequiredFee
          if changeAmount ≠ 0 ∧ isDustAmount changeAmount p2pkhPkScriptSize relayFee = false then
            if maxScriptElementSize < changeScript.length then
              some (Except.error BuildError.scriptTooLarge)
            else
              let chg : TxOut := { value := changeAmount, version := 0, pkScript := changeScript }
              let mtx : MsgTx := { version := 1, txIn := d.inputs, txOut := [outTx, chg] }
              if publish mtx then some (Except.ok mtx)
              else some (Except.error BuildError.publishFailed)
          else
            let mtx : MsgTx := { version := 1, txIn := d.inputs, txOut := [outTx] }
            if publish mtx then some (Except.ok mtx)
            else some (Except.error BuildError.publishFailed)

/-- `RegularTransaction.broadcastTransaction` / `sendFundingTx`: seed the
target fee from a single assumed standard P2PKH redeeming input against the
fixed output set, then run the convergence loop. -/
def broadcastTransaction (selectAt : Nat → Int → Except SelectError InputDetail)
    (publish : MsgTx → Bool) (relayFee : Int) (outputAmount : Int)
    (outputScript changeScript : List Nat) (fuel : Nat) :
    Option (Except BuildError MsgTx) :=
  let outTx : TxOut := { value := outputAmount, version := 0, pkScript := outputScript }
  let maxSignedSize :=
    estimateSerializeSize [redeemP2PKHSigScriptSize] [outTx] p2pkhPkScriptSize
  let targetFee := feeForSerializeSize relayFee maxSignedSize
  broadcastLoop selectAt publish relayFee outputAmount outputScript changeScript
    fuel targetFee 0

/-! ## purchaseTicket (ticketbuyer.go lines 172-279)

The ticket price, the estimated ticket fee, and the three scripts obtained
from external collaborators (`txscript.PayToSStx` on the voting address,
`txscript.GenerateSStxAddrPush`, `txscript.PayToSStxChange`) are inputs of
the assembly; `stake.CheckSStx` and the sign-and-publish RPC round trip are
oracles. -/

structure TicketParams where
  ticketPrice : Int
  ticketFee : Int
  sstxPkScript : List Nat
  commitmentScript : List Nat
  changeScript : List Nat
  fundingTxHash : Nat
  deriving DecidableEq, Repr, Inhabited

/-- The funding-output scan (`for index, output := range fundingTx.TxOut`):
starting from `-1`, overwrite the candidate index at every output whose
value equals the total ticket cost, so the last match wins. -/
def fundingIndexAux (target : Int) : List TxOut → Nat → Int → Int
  | [], _, acc => acc
  | o :: rest, i, acc =>
    fundingIndexAux target rest (i + 1) (if o.value = target then (i : Int) else acc)

def fundingOutputIndex (outs : List TxOut) (target : Int) : Int :=
  fundingIndexAux target outs 0 (-1)

/-- The assembled stake ticket transaction: one input spending the chosen
funding output with value-in equal to the total ticket cost, and the three
stake outputs (submission at the ticket price, zero-valued commitment,
zero-valued change) in this order. -/
def buildTicketTx (p : TicketParams) (fundingIdx : Nat) : MsgTx :=
  { version := 1,
    txIn := [{ previousOutPoint := { hash := p.fundingTxHash, index := fundingIdx, tree := 0 },
               sequence := 0xffffffff, valueIn := p.ticketPrice + p.ticketFee,
               signatureScript := [] }],
    txOut := [{ value := p.ticketPrice, version := 0, pkScript := p.sstxPkScript },
              { value := 0, version := 0, pkScript := p.commitmentScript },
              { value := 0, version := 0, pkScript := p.changeScript }] }

inductive PurchaseError where
  | noFundingOutput
  | checkSStxFailed
  | signFailed
  deriving DecidableEq, Repr

/-- The tail of `purchaseTicket` after the funding transaction has been
published: pick the funding output, assemble the ticket, run
`stake.CheckSStx`, and only then hand the serialized transaction to the
signer/broadcaster. -/
def purchaseTicketCore (checkSStx : MsgTx → Except Unit Unit)
    (signPublish : MsgTx → Except Unit Nat) (p : TicketParams)
    (fundingOuts : List TxOut) : Except PurchaseError Nat :=
  let fi := fundingOutputIndex fundingOuts (p.ticketPrice + p.ticketFee)
  if fi = -1 then Except.error PurchaseError.noFundingOutput
  else
    let mtx := buildTicketTx p fi.toNat
    match checkSStx mtx with
    | Except.error _ => Except.error PurchaseError.checkSStxFailed
    | Except.ok _ =>
      match signPublish mtx with
      | Except.error _ => Except.error PurchaseError.signFailed
      | Except.ok h => Except.ok h

/-! ## Lemmas about the constant-time matcher -/

/-- The filter predicate of the scan loop. -/
def scanMatches (value : Int) (scriptVer : Nat) (len0 : Nat) (o : TxOut) : Prop :=
  o.value = value ∧ o.version = scriptVer ∧ o.pkScript.length = len0

instance (value : Int) (scriptVer : Nat) (len0 : Nat) (o : TxOut) :
    Decidable (scanMatches value scriptVer len0 o) := by
  unfold scanMatches; infer_instance

theorem mem_scanIndexesAux (value : Int) (ver : Nat) (len0 : Nat) :
    ∀ (outs : List TxOut) (i0 j : Nat),
      j ∈ scanIndexesAux value ver len0 outs i0 ↔
        ∃ k, k < outs.length ∧ j = i0 + k ∧ scanMatches value ver len0 (outs.getD k default) := by
  intro outs
  induction outs with
  | nil => intro i0 j; simp [scanIndexesAux]
  | cons o rest ih =>
    intro i0 j
    have hstep : scanIndexesAux value ver len0 (o :: rest) i0 =
        if o.value = value ∧ o.version = ver ∧ o.pkScript.length = len0 then
          i0 :: scanIndexesAux value ver len0 rest (i0 + 1)
        else scanIndexesAux value ver len0 rest (i0 + 1) := rfl
    by_cases h : o.value = value ∧ o.version = ver ∧ o.pkScript.length = len0
    · rw [hstep, if_pos h]
      constructor
      · intro hj
        rcases List.mem_cons.mp hj with rfl | hj'
        · exact ⟨0, by simp, by omega, by simpa [scanMatches] using h⟩
        · obtain ⟨k, hk, hkj, hm⟩ := (ih (i0 + 1) j).mp hj'
          refine ⟨k + 1, by simp only [List.length_cons]; omega, by omega, ?_⟩
          simpa [List.getD_cons_succ] using hm
      · rintro ⟨k, hk, hkj, hm⟩
        cases k with
        | zero =>
          have hji : j = i0 := by omega
          subst hji
          exact List.mem_cons_self _ _
        | succ k' =>
          refine List.mem_cons_of_mem _ ((ih (i0 + 1) j).mpr ⟨k', ?_, by omega, ?_⟩)
          · simp only [List.length_cons] at hk; omega
          · simpa [List.getD_cons_succ] using hm
    · rw [hstep, if_neg h]
      constructor
      · intro hj
        obtain ⟨k, hk, hkj, hm⟩ := (ih (i0 + 1) j).mp hj
        refine ⟨k + 1, by simp only [List.length_cons]; omega, by omega, ?_⟩
        simpa [List.getD_cons_succ] using hm
      · rintro ⟨k, hk, hkj, hm⟩
        cases k with
        | zero => exact absurd (by simpa [scanMatches] using hm) h
        | succ k' =>
          refine (ih (i0 + 1) j).mpr ⟨k', ?_, by omega, ?_⟩
          · simp only [List.length_cons] at hk; omega
          · simpa [List.getD_cons_succ] using hm

theorem ctSelectLoop_of_no_match (outs : List TxOut) (s : List Nat) :
    ∀ (scan : List Nat) (a : Int),
      (∀ i ∈ scan, (outs.getD i default).pkScript ≠ s) → ctSelectLoop outs s scan a = a := by
  intro scan
  induction scan with
  | nil => intro a _; rfl
  | cons i rest ih =>
    intro a h
    simp only [ctSelectLoop]
    rw [if_neg (h i (List.mem_cons_self i rest))]
    exact ih a (fun j hj => h j (List.mem_cons_of_mem i hj))

theorem ctSelectLoop_of_match (outs : List TxOut) (s : List Nat) :
    ∀ (scan : List Nat) (a : Int),
      (∃ i ∈ scan, (outs.getD i default).pkScript = s) →
      ∃ i ∈ scan, ctSelectLoop outs s scan a = (i : Int) ∧ (outs.getD i default).pkScript = s := by
  intro scan
  induction scan with
  | nil => rintro a ⟨i, hi, _⟩; exact absurd hi (List.not_mem_nil i)
  | cons j rest ih =>
    intro a hex
    by_cases hrest : ∃ i ∈ rest, (outs.getD i default).pkScript = s
    · obtain ⟨i, hi, hloop, hpk⟩ := ih _ hrest
      exact ⟨i, List.mem_cons_of_mem j hi, hloop, hpk⟩
    · have hj : (outs.getD j default).pkScript = s := by
        obtain ⟨i, hi, hpk⟩ := hex
        rcases List.mem_cons.mp hi with rfl | hi'
        · exact hpk
        · exact absurd ⟨i, hi', hpk⟩ hrest
      refine ⟨j, List.mem_cons_self j rest, ?_, hj⟩
      simp only [ctSelectLoop]
      rw [if_pos hj]
      exact ctSelectLoop_of_no_match outs s rest (j : Int) (by
        intro i hi hpk
        exact hrest ⟨i, hi, hpk⟩)

theorem ctFind_eq_neg_one_iff (outs : List TxOut) (scan : List Nat) (s : List Nat) :
    ctFind outs scan s = -1 ↔ ∀ i ∈ scan, (outs.getD i default).pkScript ≠ s := by
  constructor
  · intro h
    by_contra hc
    push_neg at hc
    obtain ⟨i, hi, hloop, _⟩ := ctSelectLoop_of_match outs s scan (-1) hc
    rw [ctFind] at h
    rw [hloop] at h
    omega
  · intro h
    exact ctSelectLoop_of_no_match outs s scan (-1) h

/-- Membership reformulated through `getD`. -/
theorem mem_iff_getD (outs : List TxOut) (o : TxOut) :
    o ∈ outs ↔ ∃ k, k < outs.length ∧ outs.getD k default = o := by
  induction outs with
  | nil => simp
  | cons x rest ih =>
    constructor
    · intro hmem
      rcases List.mem_cons.mp hmem with rfl | h'
      · exact ⟨0, by simp, by simp [List.getD_cons_zero]⟩
      · obtain ⟨k, hk, hgd⟩ := ih.mp h'
        refine ⟨k + 1, by simp only [List.length_cons]; omega, ?_⟩
        simpa [List.getD_cons_succ] using hgd
    · rintro ⟨k, hk, hgd⟩
      cases k with
      | zero =>
        rw [List.getD_cons_zero] at hgd
        exact hgd ▸ List.mem_cons_self _ _
      | succ k' =>
        rw [List.getD_cons_succ] at hgd
        refine List.mem_cons_of_mem _ (ih.mpr ⟨k', ?_, hgd⟩)
        simp only [List.length_cons] at hk; omega

/-- The per-script success condition of the matcher: the searched script is
found exactly when its length equals the first searched script's length and
some output carries the searched value, version and bytes. -/
theorem ctFind_ne_neg_one_iff (tx : MsgTx) (value : Int) (ver : Nat) (s0 s : List Nat) :
    ctFind tx.txOut (scanIndexesAux value ver s0.length tx.txOut 0) s ≠ -1 ↔
      (s.length = s0.length ∧ 0 < matchCount tx.txOut value ver s) := by
  rw [ne_eq, ctFind_eq_neg_one_iff]
  push_neg
  constructor
  · rintro ⟨i, hi, hpk⟩
    rw [mem_scanIndexesAux] at hi
    obtain ⟨k, hk, hik, hm⟩ := hi
    have hik' : i = k := by omega
    subst hik'
    simp only [scanMatches] at hm
    obtain ⟨hv, hver, hlen⟩ := hm
    refine ⟨by rw [← hpk]; exact hlen, ?_⟩
    rw [matchCount, List.countP_pos_iff]
    refine ⟨tx.txOut.getD i default, (mem_iff_getD _ _).mpr ⟨i, hk, rfl⟩, ?_⟩
    simp only [Bool.and_eq_true, beq_iff_eq]
    exact ⟨⟨hv, hver⟩, hpk⟩
  · rintro ⟨hlen, hcnt⟩
    rw [matchCount, List.countP_pos_iff] at hcnt
    obtain ⟨o, ho, hp⟩ := hcnt
    simp only [Bool.and_eq_true, beq_iff_eq] at hp
    obtain ⟨⟨hv, hver⟩, hpk⟩ := hp
    obtain ⟨k, hk, hgd⟩ := (mem_iff_getD _ _).mp ho
    refine ⟨k, ?_, by rw [hgd]; exact hpk⟩
    rw [mem_scanIndexesAux]
    refine ⟨k, hk, by omega, ?_⟩
    simp only [scanMatches]
    rw [hgd]
    exact ⟨hv, hver, by rw [hpk, hlen]⟩

/-! ## Claim C1 -/

/-- C1 (amended): for a non-empty expected-script set, the constant-time
matcher succeeds — returning one index per expected script — exactly when
every expected script has the first script's length and at least one
candidate output in the transaction with equal value, script version and
script bytes; otherwise the whole call fails with the `errMissingGen`
(MissingCommitment) error and returns no indexes.  (Relative to the frozen
claim, "exactly one candidate" is weakened to "at least one candidate" —
duplicate matching outputs still succeed, with the last index selected —
and the pre-filter on `len(scripts[0])` restricts which scripts can ever
match.) -/
theorem claim_C1 (tx : MsgTx) (value : Int) (ver : Nat)
    (scripts : List (List Nat)) (s0 : List Nat) (srest : List (List Nat))
    (hs : scripts = s0 :: srest) :
    ((∃ idxs, constantTimeOutputSearch tx value ver scripts = some (Except.ok idxs)) ↔
      ∀ s ∈ scripts, s.length = s0.length ∧ 0 < matchCount tx.txOut value ver s) ∧
    ((¬ ∀ s ∈ scripts, s.length = s0.length ∧ 0 < matchCount tx.txOut value ver s) →
      constantTimeOutputSearch tx value ver scripts = some (Except.error ())) ∧
    (∀ idxs, constantTimeOutputSearch tx value ver scripts = some (Except.ok idxs) →
      idxs.length = scripts.length) := by
  subst hs
  have hcts : constantTimeOutputSearch tx value ver (s0 :: srest) =
      if ((s0 :: srest).map (ctFind tx.txOut (scanIndexesAux value ver s0.length tx.txOut 0))).any
          (fun idx => idx == -1) then
        some (Except.error ())
      else
        some (Except.ok ((s0 :: srest).map
          (ctFind tx.txOut (scanIndexesAux value ver s0.length tx.txOut 0)))) := rfl
  have hcond : ((s0 :: srest).map
        (ctFind tx.txOut (scanIndexesAux value ver s0.length tx.txOut 0))).any
          (fun idx => idx == -1) = false ↔
      ∀ s ∈ s0 :: srest, s.length = s0.length ∧ 0 < matchCount tx.txOut value ver s := by
    rw [List.any_eq_false]
    constructor
    · intro h s hsmem
      have hne := h (ctFind tx.txOut (scanIndexesAux value ver s0.length tx.txOut 0) s)
        (List.mem_map_of_mem _ hsmem)
      simp only [beq_iff_eq] at hne
      exact (ctFind_ne_neg_one_iff tx value ver s0 s).mp hne
    · intro h x hxmem
      obtain ⟨s, hsmem, rfl⟩ := List.mem_map.mp hxmem
      simp only [beq_iff_eq]
      exact (ctFind_ne_neg_one_iff tx value ver s0 s).mpr (h s hsmem)
  by_cases hb : ((s0 :: srest).map
      (ctFind tx.txOut (scanIndexesAux value ver s0.length tx.txOut 0))).any
        (fun idx => idx == -1) = true
  · have hnall : ¬ ∀ s ∈ s0 :: srest, s.length = s0.length ∧
        0 < matchCount tx.txOut value ver s := by
      intro hall
      rw [hcond.mpr hall] at hb
      exact Bool.false_ne_true hb
    refine ⟨⟨?_, ?_⟩, ?_, ?_⟩
    · rintro ⟨idxs, hok⟩
      rw [hcts, if_pos hb] at hok
      exact absurd hok (by simp)
    · intro hall
      exact absurd hall hnall
    · intro _
      rw [hcts, if_pos hb]
    · intro idxs hok
      rw [hcts, if_pos hb] at hok
      exact absurd hok (by simp)
  · have hb' : ((s0 :: srest).map
        (ctFind tx.txOut (scanIndexesAux value ver s0.length tx.txOut 0))).any
          (fun idx => idx == -1) = false := by
      cases h : ((s0 :: srest).map
          (ctFind tx.txOut (scanIndexesAux value ver s0.length tx.txOut 0))).any
            (fun idx => idx == -1)
      · rfl
      · exact absurd h hb
    refine ⟨⟨?_, ?_⟩, ?_, ?_⟩
    · intro _
      exact hcond.mp hb'
    · intro _
      exact ⟨_, by rw [hcts, if_neg hb]⟩
    · intro hn
      exact absurd (hcond.mp hb') hn
    · intro idxs hok
      rw [hcts, if_neg hb] at hok
      have hidxs : (s0 :: srest).map
          (ctFind tx.txOut (scanIndexesAux value ver s0.length tx.txOut 0)) = idxs :=
        Except.ok.inj (Option.some.inj hok)
      rw [← hidxs, List.length_map]

/-- A transaction with two byte-identical outputs, used to refute the
frozen C1's "exactly one candidate" condition. -/
def mtxDup : MsgTx := { version := 1, txIn := [], txOut := [⟨0, 0, [1]⟩, ⟨0, 0, [1]⟩] }

/-- C1 counterexample: with two identical candidate outputs (so NOT exactly
one equal-value/version/bytes candidate), the search still succeeds and
returns the last matching index, contradicting the claimed "if and only if
... exactly one". -/
theorem claim_C1_counterexample :
    constantTimeOutputSearch mtxDup 0 0 [[1]] = some (Except.ok [1]) ∧
    matchCount mtxDup.txOut 0 0 [1] = 2 := by decide

/-- A transaction with one value-5 output of script `[2]`. -/
def mtxW : MsgTx := { version := 1, txIn := [], txOut := [⟨5, 0, [2]⟩] }

/-- Witness for `claim_C1`: applied at a concrete transaction and script
set where the second expected script has no candidate, the call fails with
the `errMissingGen` error. -/
theorem claim_C1_witness :
    constantTimeOutputSearch mtxW 5 0 [[2], [3, 3]] = some (Except.error ()) :=
  (claim_C1 mtxW 5 0 [[2], [3, 3]] [2] [[3, 3]] rfl).2.1 (by decide)

/-! ## Claim C10 -/

/-- C10: `constantTimeOutputSearch` evaluates `len(scripts[0])` during
candidate pre-filtering whenever some output matches the searched value and
script version, so with an empty scripts list and such an output it panics
(modelled by `none`) instead of returning a result or error; in every other
situation it returns a value. -/
theorem claim_C10 (tx : MsgTx) (value : Int) (ver : Nat) (scripts : List (List Nat)) :
    constantTimeOutputSearch tx value ver scripts = none ↔
      scripts = [] ∧ ∃ o ∈ tx.txOut, o.value = value ∧ o.version = ver := by
  cases scripts with
  | nil =>
    simp only [constantTimeOutputSearch]
    by_cases h : tx.txOut.any (fun o => o.value == value && o.version == ver) = true
    · rw [if_pos h]
      constructor
      · intro _
        refine ⟨by simp, ?_⟩
        rw [List.any_eq_true] at h
        obtain ⟨o, ho, hp⟩ := h
        simp only [Bool.and_eq_true, beq_iff_eq] at hp
        exact ⟨o, ho, hp⟩
      · intro _
        rfl
    · rw [if_neg h]
      constructor
      · intro hcontra
        exact absurd hcontra (by simp)
      · rintro ⟨-, o, ho, hv, hver⟩
        exfalso
        apply h
        rw [List.any_eq_true]
        exact ⟨o, ho, by simp [hv, hver]⟩
  | cons s0 srest =>
    constructor
    · intro hnone
      have hcts : constantTimeOutputSearch tx value ver (s0 :: srest) =
          if ((s0 :: srest).map (ctFind tx.txOut (scanIndexesAux value ver s0.length tx.txOut 0))).any
              (fun idx => idx == -1) then
            some (Except.error ())
          else some (Except.ok ((s0 :: srest).map (ctFind tx.txOut (scanIndexesAux value ver s0.length tx.txOut 0)))) := rfl
      rw [hcts] at hnone
      split at hnone <;> exact absurd hnone (by simp)
    · rintro ⟨h, -⟩
      exact absurd h (List.cons_ne_nil s0 srest)

/-! ## Claims C2 and C9 -/

/-- The claims' phrase "declared own input is present at some index with
matching sequence and value-in fields": the joined transaction's outpoint
map resolves the input's previous outpoint to an index whose input agrees
on sequence and value-in. -/
def inputPresentIn (m : List (OutPoint × Nat)) (joinedIns : List TxIn) (tin : TxIn) : Prop :=
  ∃ idx, List.lookup tin.previousOutPoint m = some idx ∧
    tin.sequence = (joinedIns.getD idx default).sequence ∧
    tin.valueIn = (joinedIns.getD idx default).valueIn

/-- "if a change output was declared, a matching output exists". -/
def changeDeclaredOk (c : CsppJoin) (tx : MsgTx) : Prop :=
  ∀ ch, c.change = some ch → hasChangeOutput tx.txOut ch = true

theorem countMatchedInputs_le (m : List (OutPoint × Nat)) (joinedIns : List TxIn) :
    ∀ l : List TxIn, countMatchedInputs m joinedIns l ≤ l.length := by
  intro l
  induction l with
  | nil => exact Nat.le_refl 0
  | cons tin rest ih =>
    simp only [countMatchedInputs, List.length_cons]
    split
    · split
      · omega
      · omega
    · exact Nat.le_succ_of_le ih

/-- The `n != len(c.myIns)` check is exactly presence of every declared
input with matching fields. -/
theorem countMatchedInputs_eq_length_iff (m : List (OutPoint × Nat)) (joinedIns : List TxIn) :
    ∀ l : List TxIn, countMatchedInputs m joinedIns l = l.length ↔
      ∀ tin ∈ l, inputPresentIn m joinedIns tin := by
  intro l
  induction l with
  | nil => simp [countMatchedInputs]
  | cons tin rest ih =>
    simp only [countMatchedInputs, List.length_cons]
    split
    next idx hlk =>
      split
      next h =>
        constructor
        · intro heq tin' htin'
          rcases List.mem_cons.mp htin' with rfl | hmem
          · exact ⟨idx, hlk, h⟩
          · exact (ih.mp (by omega)) tin' hmem
        · intro hall
          have hr : countMatchedInputs m joinedIns rest = rest.length :=
            ih.mpr (fun tin' htin' => hall tin' (List.mem_cons_of_mem tin htin'))
          omega
      next h =>
        constructor
        · intro heq
          exfalso
          omega
        · intro hall
          exfalso
          obtain ⟨idx', hidx', hseq, hval⟩ := hall tin (List.mem_cons_self tin rest)
          rw [hlk] at hidx'
          have hii : idx = idx' := Option.some.inj hidx'
          subst hii
          exact h ⟨hseq, hval⟩
    next hlk =>
      constructor
      · intro heq
        exfalso
        have hle := countMatchedInputs_le m joinedIns rest
        omega
      · intro hall
        exfalso
        obtain ⟨idx, hidx, -, -⟩ := hall tin (List.mem_cons_self tin rest)
        rw [hlk] at hidx
        exact absurd hidx (by simp)

/-- Once the input and change validations have passed, `UnmarshalBinary`
reduces to the constant-time search dispatch. -/
theorem unmarshalBinaryS_after_checks (c : CsppJoin) (tx : MsgTx)
    (hp : ∀ tin ∈ c.myIns, inputPresentIn (buildTxInputs tx.txIn) tx.txIn tin)
    (hcok : changeDeclaredOk c tx) :
    unmarshalBinaryS c (some tx) =
      match constantTimeOutputSearch tx c.amount 0 c.genScripts with
      | none => none
      | some (Except.error _) => some (c, Except.error JoinError.missingGen)
      | some (Except.ok indexes) =>
        some ({ c with tx := tx, txInputs := buildTxInputs tx.txIn, genIndex := indexes },
              Except.ok ()) := by
  have heq : countMatchedInputs (buildTxInputs tx.txIn) tx.txIn c.myIns = c.myIns.length :=
    (countMatchedInputs_eq_length_iff _ _ _).mpr hp
  simp only [unmarshalBinaryS]
  rw [if_neg (fun hne => hne heq)]
  cases hc : c.change with
  | none => simp
  | some ch => simp [hcok ch hc]

/-- C2: `UnmarshalBinary` validates, in order, (1) presence of every
declared own input (failing with the missing-inputs error), (2) existence
of a declared change output with exactly equal value, version and script
(failing with the missing-change error), (3) the constant-time search over
the generated mix scripts (failing with the MissingCommitment error), and
only on success replaces the skeleton's transaction and records the
resolved mix-output indexes. -/
theorem claim_C2 (c : CsppJoin) (tx : MsgTx) :
    (¬ (∀ tin ∈ c.myIns, inputPresentIn (buildTxInputs tx.txIn) tx.txIn tin) →
      unmarshalBinaryS c (some tx) = some (c, Except.error JoinError.missingInputs)) ∧
    ((∀ tin ∈ c.myIns, inputPresentIn (buildTxInputs tx.txIn) tx.txIn tin) →
      ∀ ch, c.change = some ch → hasChangeOutput tx.txOut ch = false →
      unmarshalBinaryS c (some tx) = some (c, Except.error JoinError.missingChange)) ∧
    ((∀ tin ∈ c.myIns, inputPresentIn (buildTxInputs tx.txIn) tx.txIn tin) →
      changeDeclaredOk c tx →
      constantTimeOutputSearch tx c.amount 0 c.genScripts = some (Except.error ()) →
      unmarshalBinaryS c (some tx) = some (c, Except.error JoinError.missingGen)) ∧
    (∀ idxs, (∀ tin ∈ c.myIns, inputPresentIn (buildTxInputs tx.txIn) tx.txIn tin) →
      changeDeclaredOk c tx →
      constantTimeOutputSearch tx c.amount 0 c.genScripts = some (Except.ok idxs) →
      unmarshalBinaryS c (some tx) =
        some ({ c with tx := tx, txInputs := buildTxInputs tx.txIn, genIndex := idxs },
              Except.ok ())) := by
  refine ⟨?_, ?_, ?_, ?_⟩
  · intro hnp
    have hne : countMatchedInputs (buildTxInputs tx.txIn) tx.txIn c.myIns ≠ c.myIns.length :=
      fun heq => hnp ((countMatchedInputs_eq_length_iff _ _ _).mp heq)
    simp only [unmarshalBinaryS]
    rw [if_pos hne]
  · intro hp ch hch hno
    have heq : countMatchedInputs (buildTxInputs tx.txIn) tx.txIn c.myIns = c.myIns.length :=
      (countMatchedInputs_eq_length_iff _ _ _).mpr hp
    simp only [unmarshalBinaryS]
    rw [if_neg (fun hne => hne heq)]
    simp [hch, hno]
  · intro hp hcok hcts
    rw [unmarshalBinaryS_after_checks c tx hp hcok, hcts]
  · intro idxs hp hcok hcts
    rw [unmarshalBinaryS_after_checks c tx hp hcok, hcts]

/-- Concrete data exercising the claims about `UnmarshalBinary`. -/
def opEx : OutPoint := { hash := 1, index := 0, tree := 0 }

def tinEx : TxIn := { previousOutPoint := opEx, sequence := 3, valueIn := 5, signatureScript := [] }

def chEx2 : TxOut := { value := 7, version := 0, pkScript := [9] }

def cEx2 : CsppJoin :=
  { tx := { version := 1, txIn := [], txOut := [] }, txInputs := [],
    myPrevScripts := [[8]], myIns := [tinEx], change := some chEx2,
    genScripts := [[4]], genIndex := [], amount := 5 }

def txEx2 : MsgTx := { version := 1, txIn := [tinEx], txOut := [chEx2, ⟨5, 0, [4]⟩] }

/-- Witness for `claim_C2`: a concrete joined transaction containing the
declared input, the declared change, and the mix output is accepted, and
the skeleton is updated with the resolved index. -/
theorem claim_C2_witness :
    unmarshalBinaryS cEx2 (some txEx2) =
      some ({ cEx2 with tx := txEx2, txInputs := buildTxInputs txEx2.txIn, genIndex := [1] },
            Except.ok ()) :=
  (claim_C2 cEx2 txEx2).2.2.2 [1]
    (by
      intro tin htin
      have hmem : tin ∈ [tinEx] := htin
      rw [List.mem_singleton] at hmem
      subst hmem
      exact ⟨0, by decide, by decide, by decide⟩)
    (by
      intro ch hch
      have h2 : some chEx2 = some ch := hch
      cases Option.some.inj h2
      decide)
    (by decide)

/-- C9: whenever `UnmarshalBinary` returns an error — deserialization
failure, missing inputs, missing change, or missing gen output — the
skeleton keeps its previous `tx`, `txInputs` and `genIndex` fields, since
those are assigned only after all validations succeed. -/
theorem claim_C9 (c : CsppJoin) (tx? : Option MsgTx) (c' : CsppJoin) (e : JoinError)
    (h : unmarshalBinaryS c tx? = some (c', Except.error e)) :
    c'.tx = c.tx ∧ c'.txInputs = c.txInputs ∧ c'.genIndex = c.genIndex := by
  cases tx? with
  | none =>
    simp only [unmarshalBinaryS, Option.some.injEq, Prod.mk.injEq] at h
    obtain ⟨rfl, -⟩ := h
    exact ⟨rfl, rfl, rfl⟩
  | some tx =>
    simp only [unmarshalBinaryS] at h
    split at h
    · simp only [Option.some.injEq, Prod.mk.injEq] at h
      obtain ⟨rfl, -⟩ := h
      exact ⟨rfl, rfl, rfl⟩
    · split at h
      · simp only [Option.some.injEq, Prod.mk.injEq] at h
        obtain ⟨rfl, -⟩ := h
        exact ⟨rfl, rfl, rfl⟩
      · split at h
        · exact absurd h (by simp)
        · simp only [Option.some.injEq, Prod.mk.injEq] at h
          obtain ⟨rfl, -⟩ := h
          exact ⟨rfl, rfl, rfl⟩
        · simp only [Option.some.injEq, Prod.mk.injEq] at h
          obtain ⟨-, hcontra⟩ := h
          exact absurd hcontra (by simp)

/-- A skeleton whose declared input is absent from the joined transaction. -/
def cEx9 : CsppJoin :=
  { tx := { version := 1, txIn := [], txOut := [] }, txInputs := [],
    myPrevScripts := [[8]], myIns := [tinEx], change := none,
    genScripts := [[4]], genIndex := [], amount := 5 }

def txEx9 : MsgTx := { version := 1, txIn := [], txOut := [] }

/-- Witness for `claim_C9`: a failing decode leaves the concrete skeleton's
observable fields unchanged. -/
theorem claim_C9_witness :
    cEx9.tx = cEx9.tx ∧ cEx9.txInputs = cEx9.txInputs ∧ cEx9.genIndex = cEx9.genIndex :=
  claim_C9 cEx9 (some txEx9) cEx9 JoinError.missingInputs (by decide)

/-! ## Claim C5 -/

/-- Whether a decoded address is a `*dcrutil.AddressPubKeyHash`. -/
def addrIsP2pkh (a : Addr) : Bool :=
  match a with
  | Addr.p2pkh _ => true
  | Addr.otherKind _ => false

theorem confirmAux_skip_all (env : ConfirmEnv) (m : List (OutPoint × Nat)) :
    ∀ (l : List (TxIn × List Nat)) (tx : MsgTx),
      (∀ p ∈ l, (List.lookup p.1.previousOutPoint m).isSome = true) →
      (∀ p ∈ l, ∃ addrs, env.extractAddrs p.2 = Except.ok addrs ∧ addrs.length ≠ 1) →
      confirmAux env m l tx = Except.ok tx := by
  intro l
  induction l with
  | nil => intro tx _ _; rfl
  | cons p rest ih =>
    intro tx hlk hex
    obtain ⟨tin, s⟩ := p
    obtain ⟨idx, hidx⟩ := Option.isSome_iff_exists.mp (hlk (tin, s) (List.mem_cons_self _ _))
    obtain ⟨addrs, haddrs, hlen⟩ := hex (tin, s) (List.mem_cons_self _ _)
    have ihall := ih tx (fun q hq => hlk q (List.mem_cons_of_mem _ hq))
      (fun q hq => hex q (List.mem_cons_of_mem _ hq))
    rcases addrs with _ | ⟨a, _ | ⟨b, t⟩⟩
    · simp only [confirmAux, hidx, haddrs]
      exact ihall
    · cases a with
      | p2pkh h => exact absurd rfl hlen
      | otherKind x => exact absurd rfl hlen
    · simp only [confirmAux, hidx, haddrs]
      exact ihall

theorem confirmAux_bug_only_from_single_non_p2pkh (env : ConfirmEnv)
    (m : List (OutPoint × Nat)) :
    ∀ (l : List (TxIn × List Nat)) (tx : MsgTx),
      confirmAux env m l tx = Except.error ConfirmError.bug →
      ∃ p ∈ l, ∃ a, env.extractAddrs p.2 = Except.ok [a] ∧ addrIsP2pkh a = false := by
  intro l
  induction l with
  | nil => intro tx h; exact absurd h (by simp [confirmAux])
  | cons p rest ih =>
    intro tx h
    obtain ⟨tin, s⟩ := p
    cases hidx : List.lookup tin.previousOutPoint m with
    | none =>
      simp only [confirmAux, hidx] at h
      exact absurd h (by simp)
    | some idx =>
      cases haddrs : env.extractAddrs s with
      | error u =>
        simp only [confirmAux, hidx, haddrs] at h
        exact absurd h (by simp)
      | ok addrs =>
        rcases addrs with _ | ⟨a, _ | ⟨b, t⟩⟩
        · simp only [confirmAux, hidx, haddrs] at h
          obtain ⟨q, hq, haq⟩ := ih tx h
          exact ⟨q, List.mem_cons_of_mem _ hq, haq⟩
        · cases a with
          | p2pkh hsh =>
            cases hkey : env.privateKeyForAddress hsh with
            | error u =>
              simp only [confirmAux, hidx, haddrs, hkey] at h
              exact absurd h (by simp)
            | ok key =>
              cases hsig : env.signatureScript tx idx s key with
              | error u =>
                simp only [confirmAux, hidx, haddrs, hkey, hsig] at h
                exact absurd h (by simp)
              | ok sig =>
                simp only [confirmAux, hidx, haddrs, hkey, hsig] at h
                obtain ⟨q, hq, haq⟩ := ih (setSigScript tx idx sig) h
                exact ⟨q, List.mem_cons_of_mem _ hq, haq⟩
          | otherKind x =>
            exact ⟨(tin, s), List.mem_cons_self _ _, Addr.otherKind x, haddrs, rfl⟩
        · simp only [confirmAux, hidx, haddrs] at h
          obtain ⟨q, hq, haq⟩ := ih tx h
          exact ⟨q, List.mem_cons_of_mem _ hq, haq⟩

/-- C5 (amended): an own input whose previous output script resolves to a
number of addresses different from one — in particular more than one — is
skipped by `Confirm` without signing and without error: when every own
input is in that situation and present in the input map, `Confirm` returns
success with the transaction unchanged.  A `Bug`-class error arises only
from a script resolving to exactly one address that is not
pay-to-pubkey-hash. -/
theorem claim_C5 (env : ConfirmEnv) (c : CsppJoin) :
    ((∀ p ∈ c.myIns.zip c.myPrevScripts,
        (List.lookup p.1.previousOutPoint c.txInputs).isSome = true) →
     (∀ p ∈ c.myIns.zip c.myPrevScripts,
        ∃ addrs, env.extractAddrs p.2 = Except.ok addrs ∧ addrs.length ≠ 1) →
     confirmGo env c = Except.ok c.tx) ∧
    (confirmGo env c = Except.error ConfirmError.bug →
     ∃ p ∈ c.myIns.zip c.myPrevScripts,
       ∃ a, env.extractAddrs p.2 = Except.ok [a] ∧ addrIsP2pkh a = false) := by
  constructor
  · intro hlk hex
    exact confirmAux_skip_all env c.txInputs (c.myIns.zip c.myPrevScripts) c.tx hlk hex
  · intro h
    exact confirmAux_bug_only_from_single_non_p2pkh env c.txInputs
      (c.myIns.zip c.myPrevScripts) c.tx h

/-- Oracles where every script resolves to two P2PKH addresses and all
signing collaborators fail if ever consulted. -/
def envEx5 : ConfirmEnv :=
  { extractAddrs := fun _ => Except.ok [Addr.p2pkh 1, Addr.p2pkh 2],
    privateKeyForAddress := fun _ => Except.error (),
    signatureScript := fun _ _ _ _ => Except.error () }

/-- A skeleton with one own input, present in the joined transaction. -/
def cEx5 : CsppJoin :=
  { tx := { version := 1, txIn := [tinEx], txOut := [] }, txInputs := [(opEx, 0)],
    myPrevScripts := [[8]], myIns := [tinEx], change := none,
    genScripts := [], genIndex := [], amount := 0 }

/-- C5 counterexample: the own input's previous output script resolves to
two addresses, yet `Confirm` returns success (no `Bug`-class error, and no
signature is produced: the transaction is unchanged, even though every
signing oracle fails when consulted). -/
theorem claim_C5_counterexample :
    confirmGo envEx5 cEx5 = Except.ok cEx5.tx ∧
    envEx5.extractAddrs [8] = Except.ok [Addr.p2pkh 1, Addr.p2pkh 2] := by decide

/-- Witness for `claim_C5`: its skip part applied to the concrete
two-address oracles. -/
theorem claim_C5_witness : confirmGo envEx5 cEx5 = Except.ok cEx5.tx :=
  (claim_C5 envEx5 cEx5).1 (by decide)
    (fun _ _ => ⟨[Addr.p2pkh 1, Addr.p2pkh 2], rfl, by decide⟩)

/-! ## Claims C6 and C8 -/

theorem fundingIndexAux_no_match (target : Int) :
    ∀ (outs : List TxOut) (i0 : Nat) (acc : Int),
      (∀ o ∈ outs, o.value ≠ target) → fundingIndexAux target outs i0 acc = acc := by
  intro outs
  induction outs with
  | nil => intro i0 acc _; rfl
  | cons o rest ih =>
    intro i0 acc h
    simp only [fundingIndexAux]
    rw [if_neg (h o (List.mem_cons_self o rest))]
    exact ih (i0 + 1) acc (fun o' ho' => h o' (List.mem_cons_of_mem o ho'))

theorem fundingIndexAux_last_match (target : Int) :
    ∀ (outs : List TxOut) (i0 : Nat) (acc : Int) (j : Nat),
      j < outs.length →
      (outs.getD j default).value = target →
      (∀ k, j < k → k < outs.length → (outs.getD k default).value ≠ target) →
      fundingIndexAux target outs i0 acc = ((i0 + j : Nat) : Int) := by
  intro outs
  induction outs with
  | nil => intro i0 acc j hj _ _; simp at hj
  | cons o rest ih =>
    intro i0 acc j hj hmatch hlast
    cases j with
    | zero =>
      rw [List.getD_cons_zero] at hmatch
      simp only [fundingIndexAux]
      rw [if_pos hmatch]
      have hnone : ∀ o' ∈ rest, o'.value ≠ target := by
        intro o' ho'
        obtain ⟨k, hk, hgd⟩ := (mem_iff_getD rest o').mp ho'
        have hne := hlast (k + 1) (by omega) (by simp only [List.length_cons]; omega)
        rw [List.getD_cons_succ] at hne
        rw [← hgd]
        exact hne
      rw [fundingIndexAux_no_match target rest (i0 + 1) (i0 : Int) hnone]
      simp
    | succ j' =>
      rw [List.getD_cons_succ] at hmatch
      simp only [fundingIndexAux]
      have hlast' : ∀ k, j' < k → k < rest.length → (rest.getD k default).value ≠ target := by
        intro k hk1 hk2
        have hne := hlast (k + 1) (by omega) (by simp only [List.length_cons]; omega)
        rw [List.getD_cons_succ] at hne
        exact hne
      rw [ih (i0 + 1) _ j' (by simp only [List.length_cons] at hj; omega) hmatch hlast']
      congr 1
      omega

/-- C6: the assembled ticket transaction has exactly one input whose
value-in is the ticket price plus the ticket fee, and exactly three outputs
in fixed order — stake submission paying the voting address's pay-to-SStx
script exactly the ticket price, a zero-valued stake commitment, and a
zero-valued stake change — and `stake.CheckSStx` runs before any signature
is requested: its failure aborts the attempt no matter what the
signer/broadcaster would answer. -/
theorem claim_C6 (checkSStx : MsgTx → Except Unit Unit) (p : TicketParams)
    (fundingOuts : List TxOut)
    (hfi : fundingOutputIndex fundingOuts (p.ticketPrice + p.ticketFee) ≠ -1) :
    (buildTicketTx p
      (fundingOutputIndex fundingOuts (p.ticketPrice + p.ticketFee)).toNat).txIn.length = 1 ∧
    ((buildTicketTx p
      (fundingOutputIndex fundingOuts (p.ticketPrice + p.ticketFee)).toNat).txIn.getD 0
        default).valueIn = p.ticketPrice + p.ticketFee ∧
    (buildTicketTx p
      (fundingOutputIndex fundingOuts (p.ticketPrice + p.ticketFee)).toNat).txOut =
      [{ value := p.ticketPrice, version := 0, pkScript := p.sstxPkScript },
       { value := 0, version := 0, pkScript := p.commitmentScript },
       { value := 0, version := 0, pkScript := p.changeScript }] ∧
    (∀ (signPublish : MsgTx → Except Unit Nat) (e : Unit),
      checkSStx (buildTicketTx p
        (fundingOutputIndex fundingOuts (p.ticketPrice + p.ticketFee)).toNat) =
          Except.error e →
      purchaseTicketCore checkSStx signPublish p fundingOuts =
        Except.error PurchaseError.checkSStxFailed) := by
  refine ⟨rfl, rfl, rfl, ?_⟩
  intro signPublish e hcheck
  simp only [purchaseTicketCore, hcheck]
  rw [if_neg hfi]

/-- Concrete ticket parameters with total cost 3. -/
def pEx6 : TicketParams :=
  { ticketPrice := 2, ticketFee := 1, sstxPkScript := [1], commitmentScript := [2],
    changeScript := [3], fundingTxHash := 9 }

def outsEx6 : List TxOut := [⟨3, 0, [5]⟩]

/-- Witness for `claim_C6`: a failing `stake.CheckSStx` aborts the concrete
attempt even though the signer would succeed. -/
theorem claim_C6_witness :
    purchaseTicketCore (fun _ => Except.error ()) (fun _ => Except.ok 0) pEx6 outsEx6 =
      Except.error PurchaseError.checkSStxFailed :=
  (claim_C6 (fun _ => Except.error ()) pEx6 outsEx6 (by decide)).2.2.2
    (fun _ => Except.ok 0) () rfl

/-- C8: when several funding-transaction outputs carry exactly the total
ticket cost, the scan selects the last one (highest index); when none does,
the purchase fails with an error before the ticket transaction is
constructed. -/
theorem claim_C8 (checkSStx : MsgTx → Except Unit Unit)
    (signPublish : MsgTx → Except Unit Nat) (p : TicketParams)
    (fundingOuts : List TxOut) :
    (∀ j, j < fundingOuts.length →
      (fundingOuts.getD j default).value = p.ticketPrice + p.ticketFee →
      (∀ k, j < k → k < fundingOuts.length →
        (fundingOuts.getD k default).value ≠ p.ticketPrice + p.ticketFee) →
      fundingOutputIndex fundingOuts (p.ticketPrice + p.ticketFee) = (j : Int)) ∧
    ((∀ o ∈ fundingOuts, o.value ≠ p.ticketPrice + p.ticketFee) →
      purchaseTicketCore checkSStx signPublish p fundingOuts =
        Except.error PurchaseError.noFundingOutput) := by
  constructor
  · intro j hj hmatch hlast
    have hlm := fundingIndexAux_last_match (p.ticketPrice + p.ticketFee) fundingOuts 0 (-1)
      j hj hmatch hlast
    rw [fundingOutputIndex, hlm]
    simp
  · intro hnone
    have hfi : fundingOutputIndex fundingOuts (p.ticketPrice + p.ticketFee) = -1 :=
      fundingIndexAux_no_match _ fundingOuts 0 (-1) hnone
    simp only [purchaseTicketCore]
    rw [if_pos hfi]

/-- A funding transaction with value-3 outputs at indexes 0 and 2. -/
def outsEx8 : List TxOut := [⟨3, 0, [5]⟩, ⟨4, 0, [5]⟩, ⟨3, 0, [6]⟩]

/-- Witness for `claim_C8`: with two tied outputs (indexes 0 and 2) the
last one, index 2, is selected. -/
theorem claim_C8_witness :
    fundingOutputIndex outsEx8 (pEx6.ticketPrice + pEx6.ticketFee) = 2 :=
  (claim_C8 (fun _ => Except.ok ()) (fun _ => Except.ok 0) pEx6 outsEx8).1 2
    (by decide) (by decide)
    (by intro k h1 h2; have h3 : outsEx8.length = 3 := rfl; omega)

/-! ## Claim C7 -/

/-- Whether the scan would select this candidate, and with which
redeem-script size: it must be spendable, owned by the source account, and
classified into a supported redeem class. -/
def candidateSize (env : ScriptEnv) (acct : Nat) (u : Utxo) : Option Nat :=
  if u.spendable = true ∧ u.account = acct then
    match redeemScriptSizeFor env u.pkScript with
    | Except.ok (some sz) => some sz
    | _ => none
  else none

/-- Total value of the candidates the scan would select. -/
def acceptedAmount (env : ScriptEnv) (acct : Nat) : List Utxo → Int
  | [] => 0
  | u :: rest =>
    (match candidateSize env acct u with
     | some _ => u.amount
     | none => 0) + acceptedAmount env acct rest

theorem sumValueIn_append_single (l : List TxIn) (t : TxIn) :
    sumValueIn (l ++ [t]) = sumValueIn l + t.valueIn := by
  simp [sumValueIn]

theorem acceptedAmount_nonneg (env : ScriptEnv) (acct : Nat) :
    ∀ utxos : List Utxo, (∀ u ∈ utxos, 0 ≤ u.amount) → 0 ≤ acceptedAmount env acct utxos := by
  intro utxos
  induction utxos with
  | nil => intro _; exact le_refl 0
  | cons u rest ih =>
    intro h
    have h0 : 0 ≤ u.amount := h u (List.mem_cons_self u rest)
    have hr := ih (fun u' hu' => h u' (List.mem_cons_of_mem u hu'))
    simp only [acceptedAmount]
    cases candidateSize env acct u <;> simp <;> omega

theorem selectInputsAux_ok_invariant (env : ScriptEnv) (acct : Nat) (target : Int) :
    ∀ (utxos : List Utxo) (total : Int) (ins : List TxIn) (scripts : List (List Nat))
      (sizes : List Nat) (d : InputDetail),
      total = sumValueIn ins →
      sizes.length = ins.length →
      scripts.length = ins.length →
      selectInputsAux env acct target utxos total ins scripts sizes = Except.ok d →
      d.amount = sumValueIn d.inputs ∧ d.redeemScriptSizes.length = d.inputs.length ∧
      d.scripts.length = d.inputs.length ∧ target ≤ d.amount := by
  intro utxos
  induction utxos with
  | nil =>
    intro total ins scripts sizes d _ _ _ h
    exact absurd h (by simp [selectInputsAux])
  | cons u rest ih =>
    intro total ins scripts sizes d htot hlen1 hlen2 h
    by_cases hsp : u.spendable = true ∧ u.account = acct
    · cases hcls : redeemScriptSizeFor env u.pkScript with
      | error e =>
        simp only [selectInputsAux, if_pos hsp, hcls] at h
        exact absurd h (by simp)
      | ok osz =>
        cases osz with
        | none =>
          simp only [selectInputsAux, if_pos hsp, hcls] at h
          exact ih total ins scripts sizes d htot hlen1 hlen2 h
        | some sz =>
          simp only [selectInputsAux, if_pos hsp, hcls] at h
          by_cases hge : target ≤ total + u.amount
          · rw [if_pos hge] at h
            have hd := Except.ok.inj h
            subst hd
            refine ⟨?_, ?_, ?_, hge⟩
            · rw [sumValueIn_append_single, ← htot]
              rfl
            · simp [hlen1]
            · simp [hlen2]
          · rw [if_neg hge] at h
            refine ih (total + u.amount) (ins ++ [txInOfUtxo u]) (scripts ++ [u.pkScript])
              (sizes ++ [sz]) d ?_ ?_ ?_ h
            · rw [sumValueIn_append_single, htot]
              rfl
            · simp [hlen1]
            · simp [hlen2]
    · simp only [selectInputsAux, if_neg hsp] at h
      exact ih total ins scripts sizes d htot hlen1 hlen2 h

theorem selectInputsAux_insufficient (env : ScriptEnv) (acct : Nat) (target : Int) :
    ∀ (utxos : List Utxo) (total : Int) (ins : List TxIn) (scripts : List (List Nat))
      (sizes : List Nat),
      (∀ u ∈ utxos, 0 ≤ u.amount) →
      (∀ u ∈ utxos, u.spendable = true ∧ u.account = acct →
        ∀ e, redeemScriptSizeFor env u.pkScript ≠ Except.error e) →
      total + acceptedAmount env acct utxos < target →
      selectInputsAux env acct target utxos total ins scripts sizes =
        Except.error SelectError.insufficientBalance := by
  intro utxos
  induction utxos with
  | nil => intro total ins scripts sizes _ _ _; rfl
  | cons u rest ih =>
    intro total ins scripts sizes hnn hne hlt
    have hnn' : ∀ u' ∈ rest, 0 ≤ u'.amount :=
      fun u' hu' => hnn u' (List.mem_cons_of_mem u hu')
    have hne' : ∀ u' ∈ rest, u'.spendable = true ∧ u'.account = acct →
        ∀ e, redeemScriptSizeFor env u'.pkScript ≠ Except.error e :=
      fun u' hu' => hne u' (List.mem_cons_of_mem u hu')
    by_cases hsp : u.spendable = true ∧ u.account = acct
    · cases hcls : redeemScriptSizeFor env u.pkScript with
      | error e =>
        exact absurd hcls (hne u (List.mem_cons_self u rest) hsp e)
      | ok osz =>
        cases osz with
        | none =>
          simp only [selectInputsAux, if_pos hsp, hcls]
          refine ih total ins scripts sizes hnn' hne' ?_
          simp only [acceptedAmount, candidateSize, if_pos hsp, hcls] at hlt
          omega
        | some sz =>
          simp only [selectInputsAux, if_pos hsp, hcls]
          have hacc : acceptedAmount env acct (u :: rest) =
              u.amount + acceptedAmount env acct rest := by
            simp only [acceptedAmount, candidateSize, if_pos hsp, hcls]
          rw [hacc] at hlt
          have hr0 : 0 ≤ acceptedAmount env acct rest := acceptedAmount_nonneg env acct rest hnn'
          rw [if_neg (by omega)]
          refine ih (total + u.amount) (ins ++ [txInOfUtxo u]) (scripts ++ [u.pkScript])
            (sizes ++ [sz]) hnn' hne' (by omega)
    · simp only [selectInputsAux, if_neg hsp]
      refine ih total ins scripts sizes hnn' hne' ?_
      have hacc : acceptedAmount env acct (u :: rest) = 0 + acceptedAmount env acct rest := by
        simp only [acceptedAmount, candidateSize, if_neg hsp]
      rw [hacc] at hlt
      omega

/-- C7: every successful `selectInputsForAmount` result has redeem-script
sizes and previous scripts in bijection with the inputs, reports exactly
the sum of the selected input values, and meets the requested target; when
the selectable candidates (spendable, right account, supported script
class) total less than the target, the call fails with
`InsufficientBalance`. -/
theorem claim_C7 (env : ScriptEnv) (acct : Nat) (target : Int) (utxos : List Utxo) :
    (∀ d, selectInputsForAmount env acct target utxos = Except.ok d →
      d.redeemScriptSizes.length = d.inputs.length ∧
      d.scripts.length = d.inputs.length ∧
      d.amount = sumValueIn d.inputs ∧
      target ≤ d.amount) ∧
    ((∀ u ∈ utxos, 0 ≤ u.amount) →
     (∀ u ∈ utxos, u.spendable = true ∧ u.account = acct →
        ∀ e, redeemScriptSizeFor env u.pkScript ≠ Except.error e) →
     acceptedAmount env acct utxos < target →
     selectInputsForAmount env acct target utxos =
       Except.error SelectError.insufficientBalance) := by
  constructor
  · intro d h
    obtain ⟨h1, h2, h3, h4⟩ :=
      selectInputsAux_ok_invariant env acct target utxos 0 [] [] [] d rfl rfl rfl h
    exact ⟨h2, h3, h1, h4⟩
  · intro hnn hne hlt
    refine selectInputsAux_insufficient env acct target utxos 0 [] [] [] hnn hne ?_
    omega

/-- Oracles classifying every script as plain pay-to-pubkey-hash. -/
def envEx7 : ScriptEnv :=
  { getScriptClass := fun _ => ScriptClass.pubKeyHash,
    getStakeOutSubclass := fun _ => Except.ok ScriptClass.pubKeyHash }

def utxoEx7 : Utxo :=
  { txid := 1, vout := 0, tree := 0, amount := 150000, spendable := true,
    account := 0, pkScript := [7] }

/-- The selection the scan produces for `utxoEx7` at target 100000. -/
def dEx7 : InputDetail :=
  { amount := 150000, inputs := [txInOfUtxo utxoEx7], scripts := [[7]],
    redeemScriptSizes := [redeemP2PKHSigScriptSize] }

/-- Witness for `claim_C7`: the invariant instantiated on a concrete
single-candidate selection. -/
theorem claim_C7_witness :
    dEx7.redeemScriptSizes.length = dEx7.inputs.length ∧
    dEx7.scripts.length = dEx7.inputs.length ∧
    dEx7.amount = sumValueIn dEx7.inputs ∧
    (100000 : Int) ≤ dEx7.amount :=
  (claim_C7 envEx7 0 100000 [utxoEx7]).1 dEx7 (by decide)

/-! ## Claims C3 and C4 -/

/-- C3 (amended): whenever the fee-convergence loop succeeds, the selected
inputs total at least the output amount plus the fee computed (at the relay
rate) from the serialized-size estimate of the final selected inputs with
the fixed output set and the reserved change size; when a change output is
appended, the final fee (input total minus output amount minus change
value) equals exactly that estimated fee; when no change output is
appended, the final fee (input total minus output amount) exceeds the
estimated fee by a leftover that is either zero or a dust amount absorbed
into the fee.  (Relative to the frozen claim, the dust-absorption case is
the correction: there the final fee does not equal the estimate fee.) -/
theorem claim_C3 (selectAt : Nat → Int → Except SelectError InputDetail)
    (publish : MsgTx → Bool) (relayFee : Int) (outputAmount : Int)
    (outputScript changeScript : List Nat) (fuel : Nat) (targetFee0 : Int) (iter0 : Nat)
    (mtx : MsgTx)
    (hsum : ∀ i t d, selectAt i t = Except.ok d → d.amount = sumValueIn d.inputs)
    (h : broadcastLoop selectAt publish relayFee outputAmount outputScript changeScript
          fuel targetFee0 iter0 = some (Except.ok mtx)) :
    ∃ d i t, selectAt i t = Except.ok d ∧ mtx.txIn = d.inputs ∧
      outputAmount + feeForSerializeSize relayFee (estimateSerializeSize d.redeemScriptSizes
        [{ value := outputAmount, version := 0, pkScript := outputScript }]
        p2pkhPkScriptSize) ≤ sumValueIn d.inputs ∧
      ((∃ chg, mtx.txOut =
          [{ value := outputAmount, version := 0, pkScript := outputScript }, chg] ∧
          chg.value = sumValueIn d.inputs - outputAmount -
            feeForSerializeSize relayFee (estimateSerializeSize d.redeemScriptSizes
              [{ value := outputAmount, version := 0, pkScript := outputScript }]
              p2pkhPkScriptSize) ∧
          chg.value ≠ 0 ∧
          isDustAmount chg.value p2pkhPkScriptSize relayFee = false) ∨
       (mtx.txOut = [{ value := outputAmount, version := 0, pkScript := outputScript }] ∧
        (sumValueIn d.inputs - outputAmount -
            feeForSerializeSize relayFee (estimateSerializeSize d.redeemScriptSizes
              [{ value := outputAmount, version := 0, pkScript := outputScript }]
              p2pkhPkScriptSize) = 0 ∨
         isDustAmount (sumValueIn d.inputs - outputAmount -
            feeForSerializeSize relayFee (estimateSerializeSize d.redeemScriptSizes
              [{ value := outputAmount, version := 0, pkScript := outputScript }]
              p2pkhPkScriptSize)) p2pkhPkScriptSize relayFee = true))) := by
  induction fuel generalizing targetFee0 iter0 with
  | zero => exact absurd h (by simp [broadcastLoop])
  | succ n ih =>
    simp only [broadcastLoop] at h
    cases hsel : selectAt iter0 (outputAmount + targetFee0) with
    | error e =>
      rw [hsel] at h
      exact absurd h (by simp)
    | ok d =>
      rw [hsel] at h
      simp only at h
      by_cases hins : d.amount < outputAmount + targetFee0
      · rw [if_pos hins] at h
        exact absurd h (by simp)
      · rw [if_neg hins] at h
        by_cases hrem : d.amount - outputAmount <
            feeForSerializeSize relayFee (estimateSerializeSize d.redeemScriptSizes
              [{ value := outputAmount, version := 0, pkScript := outputScript }]
              p2pkhPkScriptSize)
        · rw [if_pos hrem] at h
          exact ih _ _ h
        · rw [if_neg hrem] at h
          have hda : d.amount = sumValueIn d.inputs := hsum _ _ _ hsel
          by_cases hch : d.amount - outputAmount -
              feeForSerializeSize relayFee (estimateSerializeSize d.redeemScriptSizes
                [{ value := outputAmount, version := 0, pkScript := outputScript }]
                p2pkhPkScriptSize) ≠ 0 ∧
              isDustAmount (d.amount - outputAmount -
                feeForSerializeSize relayFee (estimateSerializeSize d.redeemScriptSizes
                  [{ value := outputAmount, version := 0, pkScript := outputScript }]
                  p2pkhPkScriptSize)) p2pkhPkScriptSize relayFee = false
          · rw [if_pos hch] at h
            by_cases hlen : maxScriptElementSize < changeScript.length
            · rw [if_pos hlen] at h
              exact absurd h (by simp)
            · rw [if_neg hlen] at h
              split at h
              · have hmtx := Except.ok.inj (Option.some.inj h)
                subst hmtx
                refine ⟨d, iter0, outputAmount + targetFee0, hsel, rfl, by omega, ?_⟩
                left
                refine ⟨_, rfl, ?_, ?_, ?_⟩
                · simp only
                  omega
                · simpa using hch.1
                · simpa [hda] using hch.2
              · exact absurd h (by simp)
          · rw [if_neg hch] at h
            split at h
            · have hmtx := Except.ok.inj (Option.some.inj h)
              subst hmtx
              refine ⟨d, iter0, outputAmount + targetFee0, hsel, rfl, by omega, ?_⟩
              right
              refine ⟨rfl, ?_⟩
              rcases not_and_or.mp hch with h0 | hdust
              · left
                rw [← hda]
                omega
              · right
                rw [← hda]
                cases hd : isDustAmount (d.amount - outputAmount -
                    feeForSerializeSize relayFee (estimateSerializeSize d.redeemScriptSizes
                      [{ value := outputAmount, version := 0, pkScript := outputScript }]
                      p2pkhPkScriptSize)) p2pkhPkScriptSize relayFee
                · exact absurd hd hdust
                · rfl
            · exact absurd h (by simp)

/-- Selection oracle from the dust counterexample: always one
pay-to-pubkey-hash input worth 102550 atoms. -/
def selDustEx : Nat → Int → Except SelectError InputDetail := fun _ _ =>
  Except.ok { amount := 102550,
              inputs := [{ previousOutPoint := ⟨1, 0, 0⟩, sequence := 0xffffffff,
                           valueIn := 102550, signatureScript := [] }],
              scripts := [[3]],
              redeemScriptSizes := [redeemP2PKHSigScriptSize] }

def pkOutEx : List Nat := List.replicate 25 7

def pkChgEx : List Nat := List.replicate 25 9

/-- The transaction the builder publishes in the dust scenario: the change
leftover (60 atoms) is dust and is silently absorbed into the fee. -/
def mtxDustEx : MsgTx :=
  { version := 1,
    txIn := [{ previousOutPoint := ⟨1, 0, 0⟩, sequence := 0xffffffff,
               valueIn := 102550, signatureScript := [] }],
    txOut := [{ value := 100000, version := 0, pkScript := pkOutEx }] }

/-- C3 counterexample: at relay rate 10000 atoms/kB and output amount
100000, the builder succeeds with no change output, so its final fee is the
input total minus the output amount: 2550 atoms.  But the fee computed from
the serialized-size estimate of the final selected inputs and output set is
2490 atoms; the two differ by the absorbed 60-atom dust leftover, refuting
the claimed equality. -/
theorem claim_C3_counterexample :
    broadcastTransaction selDustEx (fun _ => true) 10000 100000 pkOutEx pkChgEx 10 =
      some (Except.ok mtxDustEx) ∧
    sumValueIn mtxDustEx.txIn - 100000 = 2550 ∧
    feeForSerializeSize 10000 (estimateSerializeSize [redeemP2PKHSigScriptSize]
      [{ value := 100000, version := 0, pkScript := pkOutEx }] p2pkhPkScriptSize) = 2490 ∧
    (2550 : Int) ≠ 2490 := by decide

/-- Selection oracle whose single input leaves a non-dust leftover. -/
def selChgEx : Nat → Int → Except SelectError InputDetail := fun _ _ =>
  Except.ok { amount := 109490,
              inputs := [{ previousOutPoint := ⟨1, 0, 0⟩, sequence := 0xffffffff,
                           valueIn := 109490, signatureScript := [] }],
              scripts := [[3]],
              redeemScriptSizes := [redeemP2PKHSigScriptSize] }

/-- The transaction the builder publishes in the change-kept scenario. -/
def mtxChgEx : MsgTx :=
  { version := 1,
    txIn := [{ previousOutPoint := ⟨1, 0, 0⟩, sequence := 0xffffffff,
               valueIn := 109490, signatureScript := [] }],
    txOut := [{ value := 100000, version := 0, pkScript := pkOutEx },
              { value := 7000, version := 0, pkScript := pkChgEx }] }

/-- Witness for `claim_C3`: the amended fee accounting instantiated on a
concrete converging run that keeps its change output. -/
theorem claim_C3_witness :
    ∃ d i t, selChgEx i t = Except.ok d ∧ mtxChgEx.txIn = d.inputs ∧
      (100000 : Int) + feeForSerializeSize 10000 (estimateSerializeSize d.redeemScriptSizes
        [{ value := 100000, version := 0, pkScript := pkOutEx }]
        p2pkhPkScriptSize) ≤ sumValueIn d.inputs ∧
      ((∃ chg, mtxChgEx.txOut =
          [{ value := 100000, version := 0, pkScript := pkOutEx }, chg] ∧
          chg.value = sumValueIn d.inputs - 100000 -
            feeForSerializeSize 10000 (estimateSerializeSize d.redeemScriptSizes
              [{ value := 100000, version := 0, pkScript := pkOutEx }]
              p2pkhPkScriptSize) ∧
          chg.value ≠ 0 ∧
          isDustAmount chg.value p2pkhPkScriptSize 10000 = false) ∨
       (mtxChgEx.txOut = [{ value := 100000, version := 0, pkScript := pkOutEx }] ∧
        (sumValueIn d.inputs - 100000 -
            feeForSerializeSize 10000 (estimateSerializeSize d.redeemScriptSizes
              [{ value := 100000, version := 0, pkScript := pkOutEx }]
              p2pkhPkScriptSize) = 0 ∨
         isDustAmount (sumValueIn d.inputs - 100000 -
            feeForSerializeSize 10000 (estimateSerializeSize d.redeemScriptSizes
              [{ value := 100000, version := 0, pkScript := pkOutEx }]
              p2pkhPkScriptSize)) p2pkhPkScriptSize 10000 = true))) :=
  claim_C3 selChgEx (fun _ => true) 10000 100000 pkOutEx pkChgEx 10 2490 0 mtxChgEx
    (by
      intro i t d hd
      cases Except.ok.inj hd
      decide)
    (by decide)

/-- Pathological selection oracle for the C4 scenario: each request is met
exactly, with a redeem-script size 1000 times the requested amount, so the
required fee grows every iteration. -/
def selPathoEx : Nat → Int → Except SelectError InputDetail := fun _ t =>
  Except.ok { amount := t,
              inputs := [{ previousOutPoint := ⟨1, 0, 0⟩, sequence := 0xffffffff,
                           valueIn := t, signatureScript := [] }],
              scripts := [[1]],
              redeemScriptSizes := [t.toNat * 1000] }

/-- Whether a loop outcome is a successfully built transaction. -/
def isOkResult : Option (Except BuildError MsgTx) → Bool
  | some (Except.ok _) => true
  | _ => false

/-- C4 evaluation: under a fee oracle whose required fee grows on every
iteration, the loop is still running after 5 iterations (no failure at the
spec's scenario ceiling of 5) and later converges successfully — only
because the fee library clamps fees at MaxAmount — and every error the loop
can ever return is a selection failure, an insufficient balance, an
oversized change script, or a publish failure: no FeeConvergenceFailed
error exists. -/
theorem claim_C4 :
    broadcastTransaction selPathoEx (fun _ => true) 1000 0 pkOutEx pkChgEx 5 = none ∧
    isOkResult (broadcastTransaction selPathoEx (fun _ => true) 1000 0 pkOutEx pkChgEx 12) =
      true ∧
    (∀ selectAt publish relayFee outputAmount outputScript changeScript fuel targetFee iter e,
      broadcastLoop selectAt publish relayFee outputAmount outputScript changeScript
        fuel targetFee iter = some (Except.error e) →
      e = BuildError.selectFailed SelectError.insufficientBalance ∨
      e = BuildError.selectFailed SelectError.stakeSubclassFailed ∨
      e = BuildError.insufficientBalance ∨
      e = BuildError.scriptTooLarge ∨
      e = BuildError.publishFailed) := by
  refine ⟨by decide, by decide, ?_⟩
  intro selectAt publish relayFee outputAmount outputScript changeScript fuel targetFee iter e _
  cases e with
  | selectFailed se =>
    cases se with
    | insufficientBalance => exact Or.inl rfl
    | stakeSubclassFailed => exact Or.inr (Or.inl rfl)
  | insufficientBalance => exact Or.inr (Or.inr (Or.inl rfl))
  | scriptTooLarge => exact Or.inr (Or.inr (Or.inr (Or.inl rfl)))
  | publishFailed => exact Or.inr (Or.inr (Or.inr (Or.inr rfl)))

/-- Witness for `claim_C4`: its error-taxonomy part applied to a concrete
run whose selection fails. -/
theorem claim_C4_witness :
    BuildError.selectFailed SelectError.insufficientBalance =
        BuildError.selectFailed SelectError.insufficientBalance ∨
      BuildError.selectFailed SelectError.insufficientBalance =
        BuildError.selectFailed SelectError.stakeSubclassFailed ∨
      BuildError.selectFailed SelectError.insufficientBalance =
        BuildError.insufficientBalance ∨
      BuildError.selectFailed SelectError.insufficientBalance = BuildError.scriptTooLarge ∨
      BuildError.selectFailed SelectError.insufficientBalance = BuildError.publishFailed :=
  claim_C4.2.2 (fun _ _ => Except.error SelectError.insufficientBalance) (fun _ => true)
    1000 0 pkOutEx pkChgEx 1 0 0
    (BuildError.selectFailed SelectError.insufficientBalance) (by decide)

end TicketBuyer
